import Mathlib

/-! Verification of the connection-monitoring and self-healing subsystem:
the heal chain element (pkg/networkservice/common/heal/client.go) and the
event-channel fan-out broadcaster
(pkg/networkservice/core/eventchannel/monitor_client.go).

The Go code is embedded shallowly. Each call-scoped operation becomes a pure
Lean function from an explicit state and an environment (the outcomes of the
external collaborators it invokes) to a result, a successor state and a trace
of the observable actions the operation performed, listed in program order.
The broadcaster, whose shared state is mutated only by tasks running on a
serialized executor, is embedded as a state machine whose steps are the three
kinds of tasks the Go code submits to that executor (register a subscription,
remove-and-close a subscription, deliver one upstream event to every live
subscription); an execution of the executor is a list of such tasks. -/

namespace HealSDK

instance exceptDecEq {ε α : Type} [DecidableEq ε] [DecidableEq α] :
    DecidableEq (Except ε α) := fun x y =>
  match x, y with
  | Except.ok a, Except.ok b =>
      if h : a = b then isTrue (by rw [h]) else isFalse (by simp [h])
  | Except.error a, Except.error b =>
      if h : a = b then isTrue (by rw [h]) else isFalse (by simp [h])
  | Except.ok _, Except.error _ => isFalse (by simp)
  | Except.error _, Except.ok _ => isFalse (by simp)

namespace heal

/-- Errors flowing through `healClient.Request`/`Close`: an error returned by
the downstream `next.Client(ctx).Request`, an error from `newEventLoop`, or
the result of `errors.Wrap`. -/
inductive Err where
  | downstream (code : Nat)
  | eventLoopSetup (code : Nat)
  | wrap (msg : String) (inner : Err)
deriving DecidableEq, Repr

/-- A monitoring-task cancellation handle (the `cancelEventLoop` closure),
identified by an id. -/
abbrev CancelHandle := Nat

/-- An established connection (`*networkservice.Connection`), identified by an id. -/
abbrev Conn := Nat

/-- The observable actions `healClient.Request` and `healClient.Close` perform,
in source order: capturing the postpone close-context snapshot
(`postpone.ContextWithValues`), invoking a stored cancellation handle
(`cancelEventLoop()` after `loadAndDelete`), forwarding the request downstream
(`next.Client(ctx).Request`), starting a monitoring task (`newEventLoop`),
forwarding a Close downstream (`next.Client(...).Close`), and storing a new
cancellation handle (`store`). -/
inductive Action where
  | captureCloseCtx
  | cancelEventLoop (h : CancelHandle)
  | forwardRequest
  | startEventLoop
  | forwardClose (c : Conn)
  | storeHandle (h : CancelHandle)
deriving DecidableEq, Repr

/-- Outcomes of the external collaborators one `Request` call invokes:
the downstream `next.Client(ctx).Request` result, whether `clientconn.Load`
finds a client-connection handle in the context, and the `newEventLoop`
result (a cancellation handle, or a setup error). -/
structure RequestEnv where
  nextRequest : Except Err Conn
  ccLoaded : Bool
  newEventLoop : Except Err CancelHandle
deriving DecidableEq, Repr

/-- Result of one `Request` call: the `(conn, err)` return pair (as `Except`),
the cancellation handle stored in the per-connection metadata slot afterwards,
and the trace of actions performed, in program order. -/
structure RequestOutcome where
  result : Except Err Conn
  stored : Option CancelHandle
  trace : List Action
deriving DecidableEq, Repr

/-- Shallow embedding of `healClient.Request` (client.go lines 58-82).
`st` is the per-logical-connection metadata slot holding the cancellation
handle of the currently active monitoring task, if any (`loadAndDelete` /
`store` operate on it). The body follows the source line by line:
capture the postpone snapshot; load-and-delete and invoke any stored
cancellation handle; forward the request downstream; on downstream error
return it unchanged; otherwise, if a client connection is loaded, start the
event loop — on event-loop error issue Close on the just-established
connection and return a wrapped error, else store the new handle. -/
def Request (st : Option CancelHandle) (env : RequestEnv) : RequestOutcome :=
  let tr1 : List Action := [Action.captureCloseCtx]
  let tr2 : List Action := tr1 ++ (match st with
    | some h => [Action.cancelEventLoop h]
    | none => [])
  let tr3 : List Action := tr2 ++ [Action.forwardRequest]
  match env.nextRequest with
  | Except.error e => ⟨Except.error e, none, tr3⟩
  | Except.ok conn =>
    if env.ccLoaded then
      let tr4 := tr3 ++ [Action.startEventLoop]
      match env.newEventLoop with
      | Except.error e =>
          ⟨Except.error (Err.wrap "unable to monitor" e), none,
            tr4 ++ [Action.forwardClose conn]⟩
      | Except.ok h => ⟨Except.ok conn, some h, tr4 ++ [Action.storeHandle h]⟩
    else ⟨Except.ok conn, none, tr3⟩

/-- Outcome of the downstream `next.Client(ctx).Close` call. -/
structure CloseEnv where
  nextClose : Except Err Unit
deriving DecidableEq, Repr

/-- Result of one `Close` call: the downstream result passed through, the
metadata slot afterwards, and the trace of actions performed. -/
structure CloseOutcome where
  result : Except Err Unit
  stored : Option CancelHandle
  trace : List Action
deriving DecidableEq, Repr

/-- Shallow embedding of `healClient.Close` (client.go lines 84-90):
load-and-delete and invoke any stored cancellation handle, then forward
Close downstream and return its result unchanged. -/
def Close (st : Option CancelHandle) (conn : Conn) (env : CloseEnv) : CloseOutcome :=
  let tr : List Action := (match st with
    | some h => [Action.cancelEventLoop h]
    | none => []) ++ [Action.forwardClose conn]
  ⟨env.nextClose, none, tr⟩

/-- Index of the first occurrence of an action in a trace (length if absent). -/
def firstIdx : List Action → Action → Nat
  | [], _ => 0
  | b :: tr, a => if b = a then 0 else firstIdx tr a + 1

/-- `occursBefore tr a b`: both actions occur in the trace and the first
occurrence of `a` is strictly before the first occurrence of `b`. -/
def occursBefore (tr : List Action) (a b : Action) : Prop :=
  a ∈ tr ∧ b ∈ tr ∧ firstIdx tr a < firstIdx tr b

instance (tr : List Action) (a b : Action) : Decidable (occursBefore tr a b) := by
  unfold occursBefore
  infer_instance

end heal

namespace eventchannel

/-- A connection event (`*networkservice.ConnectionEvent`), identified by an id. -/
abbrev Event := Nat

/-- A `MonitorScopeSelector` value, identified by an id (`none` is Go `nil`). -/
abbrev Selector := Nat

/-- The tasks `monitorConnectionClient` submits to its serialized
`updateExecutor`: registering a fanout channel (the `AsyncExec` body in
`MonitorConnections`), removing a fanout channel from the live list and
closing it (the inner `AsyncExec` body run when the subscriber context is
done), and delivering one upstream event to every live fanout channel (the
`AsyncExec` body in `eventLoop`). -/
inductive Task where
  | register (sid : Nat)
  | remove (sid : Nat)
  | deliver (e : Event)
deriving DecidableEq, Repr

/-- One fanout output channel: its declared buffer capacity (from
`make(chan *networkservice.ConnectionEvent, 100)`), the events pushed to it
so far in push order, and whether `close` has been called on it. -/
structure Sub where
  capacity : Nat
  queue : List Event
  closed : Bool
deriving DecidableEq, Repr

/-- State of one `monitorConnectionClient`: a fresh-id source for channels,
the record of every fanout channel created so far keyed by id,
`fanoutEventChs` (the live list the delivery task iterates over), and the
serialized executor's queue of submitted-but-not-yet-executed tasks. -/
structure monitorConnectionClient where
  nextId : Nat
  subs : List (Nat × Sub)
  fanoutEventChs : List Nat
  pending : List Task
deriving DecidableEq, Repr

/-- Look up a fanout channel record by id. -/
def getSub (subs : List (Nat × Sub)) (sid : Nat) : Option Sub :=
  (subs.find? (fun p => p.1 = sid)).map Prod.snd

/-- Update the fanout channel record with the given id. -/
def setSub (subs : List (Nat × Sub)) (sid : Nat) (f : Sub → Sub) :
    List (Nat × Sub) :=
  subs.map (fun p => if p.1 = sid then (p.1, f p.2) else p)

/-- `fanoutEventCh <- e`: append one event to a channel's queue. -/
def pushEvent (e : Event) (sid : Nat) (subs : List (Nat × Sub)) :
    List (Nat × Sub) :=
  setSub subs sid (fun s => { s with queue := s.queue ++ [e] })

/-- The body of the delivery task: push the event to every channel in the
live list, in list order (`for _, fanoutEventCh := range m.fanoutEventChs`). -/
def pushAll (e : Event) (live : List Nat) (subs : List (Nat × Sub)) :
    List (Nat × Sub) :=
  live.foldl (fun acc sid => pushEvent e sid acc) subs

/-- Number of occurrences of an id in the live list. -/
def occCount (sid : Nat) : List Nat → Nat
  | [] => 0
  | x :: xs => (if x = sid then 1 else 0) + occCount sid xs

/-- Number of occurrences of a task in a task list. -/
def occTask (t : Task) : List Task → Nat
  | [] => 0
  | x :: xs => (if x = t then 1 else 0) + occTask t xs

/-- Execute one task of the serialized executor, exactly as the corresponding
`AsyncExec` body mutates the shared state: `register` appends the channel to
`fanoutEventChs`; `remove` rebuilds `fanoutEventChs` without the channel and
then closes it, in that order, within the one task; `deliver` pushes the
event to every channel currently in `fanoutEventChs`. -/
def execTask (m : monitorConnectionClient) (t : Task) : monitorConnectionClient :=
  match t with
  | Task.register sid => { m with fanoutEventChs := m.fanoutEventChs ++ [sid] }
  | Task.remove sid =>
      { m with
        fanoutEventChs := m.fanoutEventChs.filter (fun x => x ≠ sid),
        subs := setSub m.subs sid (fun s => { s with closed := true }) }
  | Task.deliver e => { m with subs := pushAll e m.fanoutEventChs m.subs }

/-- Execute a list of serialized-executor tasks in order. -/
def execTasks (m : monitorConnectionClient) : List Task → monitorConnectionClient
  | [] => m
  | t :: ts => execTasks (execTask m t) ts

/-- A task is protocol-compliant in a state when the code could submit it
there: a `register` task registers a channel just created by
`MonitorConnections`, so the channel is not yet in the live list and is not
closed; `remove` and `deliver` tasks carry no precondition. -/
def wfStep (m : monitorConnectionClient) (t : Task) : Bool :=
  match t with
  | Task.register sid =>
      decide (occCount sid m.fanoutEventChs = 0) &&
        m.subs.all (fun p => decide (p.1 ≠ sid) || !p.2.closed)
  | Task.remove _ => true
  | Task.deliver _ => true

/-- A task list is protocol-compliant from a state when each task is
protocol-compliant in the state reached by its predecessors. -/
def wfTrace : monitorConnectionClient → List Task → Bool
  | _, [] => true
  | m, t :: ts => wfStep m t && wfTrace (execTask m t) ts

/-- The key safety invariant: a closed fanout channel is never in the live
list (the removal task removes the channel from `fanoutEventChs` before
closing it, within one serialized task). -/
def closedNotLive (m : monitorConnectionClient) : Bool :=
  m.subs.all (fun p => !p.2.closed || decide (occCount p.1 m.fanoutEventChs = 0))

/-- Shallow embedding of `monitorConnectionClient.MonitorConnections`
(monitor_client.go lines 53-72): make a fresh channel with buffer capacity
100, submit a registration task to the serialized executor (`AsyncExec`
enqueues it; the live list is not touched yet), and return the channel to
the caller immediately with a nil error. The `MonitorScopeSelector` argument
is never read. The removal task for this channel is submitted later, when
the subscriber's context is done; in this embedding it appears as a
`Task.remove` in a subsequent task list. -/
def MonitorConnections (m : monitorConnectionClient) (_sel : Option Selector) :
    Except heal.Err (Nat × monitorConnectionClient) :=
  Except.ok (m.nextId,
    { m with
      nextId := m.nextId + 1,
      subs := m.subs ++ [(m.nextId, ⟨100, [], false⟩)],
      pending := m.pending ++ [Task.register m.nextId] })

/-- A concrete broadcaster state for evaluating the fan-out theorems:
channel 0 is live and open; channel 1 is closed and no longer live. -/
def c4State : monitorConnectionClient :=
  ⟨2, [(0, ⟨100, [], false⟩), (1, ⟨100, [5], true⟩)], [0], []⟩

/-- A concrete executor task list: deliver event 7, then remove channel 0. -/
def c4Tasks : List Task := [Task.deliver 7, Task.remove 0]

/-- A concrete broadcaster state with a single live open channel 0. -/
def c5State : monitorConnectionClient := ⟨1, [(0, ⟨100, [], false⟩)], [0], []⟩

/-- Lookup in a non-empty channel record list checks the head key first. -/
theorem getSub_cons (x : Nat × Sub) (l : List (Nat × Sub)) (sid : Nat) :
    getSub (x :: l) sid = if x.1 = sid then some x.2 else getSub l sid := by
  by_cases h : x.1 = sid <;> simp [getSub, List.find?, h]

/-- Looking up after `setSub` applies the update exactly at the given key. -/
theorem getSub_setSub (subs : List (Nat × Sub)) (sid a : Nat) (f : Sub → Sub) :
    getSub (setSub subs a f) sid =
      if a = sid then (getSub subs sid).map f else getSub subs sid := by
  induction subs with
  | nil => simp [getSub, setSub]
  | cons p ps ih =>
    have hset : setSub (p :: ps) a f =
        (if p.1 = a then (p.1, f p.2) else p) :: setSub ps a f := rfl
    rw [hset]
    by_cases h1 : p.1 = a
    · by_cases h2 : p.1 = sid
      · have ha : a = sid := h1.symm.trans h2
        simp [getSub_cons, h1, h2, ha]
      · have ha : a ≠ sid := fun hh => h2 (h1.trans hh)
        simp [getSub_cons, h1, h2, ha, ih]
    · rw [if_neg h1, getSub_cons, getSub_cons]
      by_cases h2 : p.1 = sid
      · have ha : a ≠ sid := fun hh => h1 (h2.trans hh.symm ▸ rfl)
        simp [h2, ha]
      · simp [h2, ih]

/-- Looking up after one push appends the event exactly at the given key. -/
theorem getSub_pushEvent (e : Event) (a sid : Nat) (subs : List (Nat × Sub)) :
    getSub (pushEvent e a subs) sid =
      if a = sid then
        (getSub subs sid).map (fun s => { s with queue := s.queue ++ [e] })
      else getSub subs sid :=
  getSub_setSub subs sid a _

/-- One delivery appends the event to a channel's queue once per occurrence
of the channel in the live list, and leaves non-live channels untouched. -/
theorem getSub_pushAll (e : Event) (L : List Nat) (subs : List (Nat × Sub))
    (sid : Nat) :
    getSub (pushAll e L subs) sid =
      (getSub subs sid).map
        (fun s => { s with queue := s.queue ++ List.replicate (occCount sid L) e }) := by
  induction L generalizing subs with
  | nil => cases h : getSub subs sid <;> simp [pushAll, occCount, h]
  | cons a L ih =>
    have hstep : pushAll e (a :: L) subs = pushAll e L (pushEvent e a subs) := rfl
    rw [hstep, ih, getSub_pushEvent]
    by_cases h : a = sid <;> cases hg : getSub subs sid <;>
      simp [occCount, h, hg, Nat.one_add, List.replicate_succ]

/-- Pushing the live list over an empty live list changes nothing. -/
theorem map_occCount_nil (e : Event) (subs : List (Nat × Sub)) :
    subs.map (fun p => (p.1,
      { p.2 with queue := p.2.queue ++ List.replicate (occCount p.1 []) e })) = subs := by
  induction subs with
  | nil => rfl
  | cons p ps ihs =>
    obtain ⟨k, s⟩ := p
    obtain ⟨cap, q, cl⟩ := s
    simp [occCount, ihs]

/-- A delivery task maps every channel record to the same record with the
event appended once per occurrence of its key in the live list; keys,
capacities and closed flags are untouched. -/
theorem pushAll_eq_map (e : Event) (L : List Nat) (subs : List (Nat × Sub)) :
    pushAll e L subs =
      subs.map (fun p => (p.1,
        { p.2 with queue := p.2.queue ++ List.replicate (occCount p.1 L) e })) := by
  induction L generalizing subs with
  | nil => exact (map_occCount_nil e subs).symm
  | cons a L ih =>
    have hstep : pushAll e (a :: L) subs = pushAll e L (pushEvent e a subs) := rfl
    rw [hstep, ih]
    have hpe : pushEvent e a subs =
        subs.map (fun p =>
          if p.1 = a then (p.1, { p.2 with queue := p.2.queue ++ [e] }) else p) := by
      simp [pushEvent, setSub]
    rw [hpe, List.map_map]
    exact List.map_congr_left (fun p _ => by
      by_cases h : p.1 = a
      · simp [Function.comp, h, occCount, Nat.one_add, List.replicate_succ,
          List.append_assoc]
      · have hne : a ≠ p.1 := fun hh => h hh.symm
        simp [Function.comp, h, hne, occCount])

/-- Occurrence counting distributes over append. -/
theorem occCount_append (k : Nat) (l1 l2 : List Nat) :
    occCount k (l1 ++ l2) = occCount k l1 + occCount k l2 := by
  induction l1 with
  | nil => simp [occCount]
  | cons a l ih => simp [occCount, ih]; omega

/-- The removal task's filter eliminates every occurrence of the removed id. -/
theorem occCount_filter_self (k : Nat) (l : List Nat) :
    occCount k (l.filter (fun x => x ≠ k)) = 0 := by
  induction l with
  | nil => rfl
  | cons a l ih =>
    simp only [ne_eq, decide_not] at ih
    by_cases h : a = k <;> simp [List.filter_cons, h, occCount, ih]

/-- Filtering can only lower an occurrence count. -/
theorem occCount_filter_le (k a : Nat) (l : List Nat) :
    occCount k (l.filter (fun x => x ≠ a)) ≤ occCount k l := by
  induction l with
  | nil => exact Nat.le_refl _
  | cons b l ih =>
    simp only [ne_eq, decide_not] at ih
    by_cases h : b = a
    · simp only [List.filter_cons, h]
      simp [occCount]
      exact Nat.le_trans ih (Nat.le_add_left _ _)
    · simp only [List.filter_cons, h]
      simp [occCount, h]
      exact ih

/-- A successful lookup exhibits the channel record as a list member. -/
theorem getSub_mem (subs : List (Nat × Sub)) (sid : Nat) (sub : Sub)
    (h : getSub subs sid = some sub) : (sid, sub) ∈ subs := by
  induction subs with
  | nil => simp [getSub] at h
  | cons x l ih =>
    rw [getSub_cons] at h
    by_cases hx : x.1 = sid
    · rw [if_pos hx] at h
      obtain ⟨a, b⟩ := x
      injection h with h2
      exact List.mem_cons.mpr (Or.inl (by rw [← hx, ← h2]))
    · rw [if_neg hx] at h
      exact List.mem_cons_of_mem _ (ih h)

/-- One protocol-compliant executor task preserves the closed-implies-not-live
invariant. -/
theorem closedNotLive_step (m : monitorConnectionClient) (t : Task)
    (hInv : closedNotLive m = true) (hwf : wfStep m t = true) :
    closedNotLive (execTask m t) = true := by
  cases t with
  | register sid =>
    simp only [closedNotLive, List.all_eq_true, Bool.or_eq_true, Bool.not_eq_true',
      decide_eq_true_eq] at hInv ⊢
    simp only [wfStep, Bool.and_eq_true, List.all_eq_true, Bool.or_eq_true,
      Bool.not_eq_true', decide_eq_true_eq] at hwf
    intro p hp
    simp only [execTask] at hp ⊢
    by_cases hc : p.2.closed = false
    · exact Or.inl hc
    · right
      rcases hInv p hp with hcf | hocc
      · exact absurd hcf hc
      · rcases hwf.2 p hp with hne | hcf
        · rw [occCount_append, hocc]
          simp [occCount]
          exact fun hh => hne hh.symm
        · exact absurd hcf hc
  | remove sid =>
    simp only [closedNotLive, List.all_eq_true, Bool.or_eq_true, Bool.not_eq_true',
      decide_eq_true_eq] at hInv ⊢
    intro p hp
    simp only [execTask, setSub] at hp ⊢
    obtain ⟨q, hq, rfl⟩ := List.mem_map.mp hp
    by_cases h : q.1 = sid
    · right
      simp only [if_pos h]
      rw [h]
      exact occCount_filter_self sid m.fanoutEventChs
    · simp only [if_neg h]
      rcases hInv q hq with hcf | hocc
      · exact Or.inl hcf
      · right
        exact Nat.le_zero.mp (hocc ▸ occCount_filter_le q.1 sid m.fanoutEventChs)
  | deliver e =>
    simp only [closedNotLive, List.all_eq_true, Bool.or_eq_true, Bool.not_eq_true',
      decide_eq_true_eq] at hInv ⊢
    intro p hp
    simp only [execTask, pushAll_eq_map] at hp ⊢
    obtain ⟨q, hq, rfl⟩ := List.mem_map.mp hp
    exact hInv q hq

/-- Once a channel is closed, no executor task changes its record again:
registration does not touch records, a second removal writes the closed flag
it already has, and delivery skips it because it is no longer live. -/
theorem closed_frozen_step (m : monitorConnectionClient) (t : Task) (sid : Nat)
    (sub : Sub) (hInv : closedNotLive m = true)
    (hget : getSub m.subs sid = some sub) (hcl : sub.closed = true) :
    getSub (execTask m t).subs sid = some sub := by
  cases t with
  | register a => exact hget
  | remove a =>
    rw [show (execTask m (Task.remove a)).subs =
      setSub m.subs a (fun s => { s with closed := true }) from rfl, getSub_setSub]
    by_cases h : a = sid
    · rw [if_pos h, hget]
      obtain ⟨cap, q, cl⟩ := sub
      simp only [] at hcl
      simp [hcl]
    · rw [if_neg h]
      exact hget
  | deliver e =>
    rw [show (execTask m (Task.deliver e)).subs =
      pushAll e m.fanoutEventChs m.subs from rfl, getSub_pushAll, hget]
    have hmem := getSub_mem _ _ _ hget
    have h0 : occCount sid m.fanoutEventChs = 0 := by
      simp only [closedNotLive, List.all_eq_true, Bool.or_eq_true, Bool.not_eq_true',
        decide_eq_true_eq] at hInv
      rcases hInv _ hmem with hcf | h0
      · rw [hcl] at hcf
        cases hcf
      · exact h0
    rw [h0]
    obtain ⟨cap, q, cl⟩ := sub
    simp

/-- The closed-implies-not-live invariant holds after any protocol-compliant
task list. -/
theorem closedNotLive_trace (m : monitorConnectionClient) (tr : List Task)
    (hInv : closedNotLive m = true) (hwf : wfTrace m tr = true) :
    closedNotLive (execTasks m tr) = true := by
  induction tr generalizing m with
  | nil => exact hInv
  | cons t ts ih =>
    rw [wfTrace, Bool.and_eq_true] at hwf
    exact ih _ (closedNotLive_step m t hInv hwf.1) hwf.2

/-- Once a channel is closed, its record — queue contents included — never
changes again across any protocol-compliant task list. -/
theorem closed_frozen_trace (m : monitorConnectionClient) (tr : List Task)
    (sid : Nat) (sub : Sub) (hInv : closedNotLive m = true)
    (hwf : wfTrace m tr = true) (hget : getSub m.subs sid = some sub)
    (hcl : sub.closed = true) :
    getSub (execTasks m tr).subs sid = some sub := by
  induction tr generalizing m with
  | nil => exact hget
  | cons t ts ih =>
    rw [wfTrace, Bool.and_eq_true] at hwf
    exact ih _ (closedNotLive_step m t hInv hwf.1) hwf.2
      (closed_frozen_step m t sid sub hInv hget hcl)

/-- A task other than removing this channel leaves its closed flag unchanged. -/
theorem closed_flag_step (m : monitorConnectionClient) (t : Task) (sid : Nat)
    (hne : t ≠ Task.remove sid) :
    (getSub (execTask m t).subs sid).map Sub.closed =
      (getSub m.subs sid).map Sub.closed := by
  cases t with
  | register a => rfl
  | remove a =>
    have h : a ≠ sid := fun hh => hne (by rw [hh])
    rw [show (execTask m (Task.remove a)).subs =
      setSub m.subs a (fun s => { s with closed := true }) from rfl, getSub_setSub,
      if_neg h]
  | deliver e =>
    rw [show (execTask m (Task.deliver e)).subs =
      pushAll e m.fanoutEventChs m.subs from rfl, getSub_pushAll]
    cases getSub m.subs sid <;> rfl

/-- A channel's closed flag is untouched by any task list containing no
removal task for it: a queue is closed only by its own removal task. -/
theorem closed_flag_trace (m : monitorConnectionClient) (tr : List Task)
    (sid : Nat) (h0 : occTask (Task.remove sid) tr = 0) :
    (getSub (execTasks m tr).subs sid).map Sub.closed =
      (getSub m.subs sid).map Sub.closed := by
  induction tr generalizing m with
  | nil => rfl
  | cons t ts ih =>
    rw [occTask] at h0
    have hte : t ≠ Task.remove sid := by
      intro hh
      rw [if_pos hh] at h0
      omega
    have hts : occTask (Task.remove sid) ts = 0 := by
      rw [if_neg hte] at h0
      omega
    exact (ih (execTask m t) hts).trans (closed_flag_step m t sid hte)

end eventchannel

/-! ## Claims about the heal chain element -/

open heal in
/-- C1: for every logical connection key, at most one monitoring task is
active at any time: every Request invokes the cancellation handle of any
previously stored monitoring task before storing a new one, and every Close
invokes it and stores no replacement. -/
theorem C1_at_most_one_monitor (h h2 : heal.CancelHandle) (conn : heal.Conn)
    (env : heal.RequestEnv) (cenv : heal.CloseEnv) :
    heal.Action.cancelEventLoop h ∈ (heal.Request (some h) env).trace ∧
    (heal.Action.storeHandle h2 ∈ (heal.Request (some h) env).trace →
      heal.occursBefore (heal.Request (some h) env).trace
        (heal.Action.cancelEventLoop h) (heal.Action.storeHandle h2)) ∧
    heal.Action.cancelEventLoop h ∈ (heal.Close (some h) conn cenv).trace ∧
    (heal.Close (some h) conn cenv).stored = none ∧
    heal.Action.storeHandle h2 ∉ (heal.Close (some h) conn cenv).trace := by
  obtain ⟨nr, cc, nel⟩ := env
  cases nr <;> cases cc <;> cases nel <;>
    simp [heal.Request, heal.Close, heal.occursBefore, heal.firstIdx]

/-- Witness for C1 at a concrete input: the Request stores handle 7 and its
trace cancels the previous handle 5 strictly before the store. -/
theorem C1_at_most_one_monitor_witness :
    heal.Action.storeHandle 7 ∈
      (heal.Request (some 5) ⟨Except.ok 1, true, Except.ok 7⟩).trace ∧
    heal.occursBefore (heal.Request (some 5) ⟨Except.ok 1, true, Except.ok 7⟩).trace
      (heal.Action.cancelEventLoop 5) (heal.Action.storeHandle 7) :=
  ⟨by decide,
    (C1_at_most_one_monitor 5 7 1 ⟨Except.ok 1, true, Except.ok 7⟩
      ⟨Except.ok ()⟩).2.1 (by decide)⟩

/-- C2: when the downstream forward succeeds, a client-connection handle is
loaded, but starting the monitoring task fails, Request issues Close on the
just-established connection, returns a nil connection with an error wrapping
the setup error, and stores no cancellation handle. -/
theorem C2_monitor_setup_failure (st : Option heal.CancelHandle)
    (conn : heal.Conn) (e : heal.Err) :
    (heal.Request st ⟨Except.ok conn, true, Except.error e⟩).result =
      Except.error (heal.Err.wrap "unable to monitor" e) ∧
    (heal.Request st ⟨Except.ok conn, true, Except.error e⟩).stored = none ∧
    heal.Action.forwardClose conn ∈
      (heal.Request st ⟨Except.ok conn, true, Except.error e⟩).trace ∧
    (∀ h2, heal.Action.storeHandle h2 ∉
      (heal.Request st ⟨Except.ok conn, true, Except.error e⟩).trace) := by
  cases st <;> simp [heal.Request]

/-- Witness for C2 at a concrete input: with handle 4 stored and event-loop
setup failing with error 9, Request returns the wrapped error and its trace
stores nothing. -/
theorem C2_monitor_setup_failure_witness :
    (heal.Request (some 4)
      ⟨Except.ok 1, true, Except.error (heal.Err.eventLoopSetup 9)⟩).result =
      Except.error (heal.Err.wrap "unable to monitor" (heal.Err.eventLoopSetup 9)) ∧
    heal.Action.storeHandle 3 ∉
      (heal.Request (some 4)
        ⟨Except.ok 1, true, Except.error (heal.Err.eventLoopSetup 9)⟩).trace :=
  ⟨(C2_monitor_setup_failure (some 4) 1 (heal.Err.eventLoopSetup 9)).1,
    (C2_monitor_setup_failure (some 4) 1 (heal.Err.eventLoopSetup 9)).2.2.2 3⟩

/-- C3: when the downstream forward fails, Request returns the downstream
error unchanged (nil connection), starts no monitoring task and stores no
cancellation handle. -/
theorem C3_establishment_failure (st : Option heal.CancelHandle) (cc : Bool)
    (nel : Except heal.Err heal.CancelHandle) (e : heal.Err) :
    (heal.Request st ⟨Except.error e, cc, nel⟩).result = Except.error e ∧
    (heal.Request st ⟨Except.error e, cc, nel⟩).stored = none ∧
    heal.Action.startEventLoop ∉ (heal.Request st ⟨Except.error e, cc, nel⟩).trace ∧
    (∀ h2, heal.Action.storeHandle h2 ∉
      (heal.Request st ⟨Except.error e, cc, nel⟩).trace) := by
  cases st <;> simp [heal.Request]

/-- Witness for C3 at a concrete input: a downstream failure with error 2 is
returned unchanged and no monitoring task is started. -/
theorem C3_establishment_failure_witness :
    (heal.Request (some 4)
      ⟨Except.error (heal.Err.downstream 2), true, Except.ok 5⟩).result =
      Except.error (heal.Err.downstream 2) ∧
    heal.Action.startEventLoop ∉
      (heal.Request (some 4)
        ⟨Except.error (heal.Err.downstream 2), true, Except.ok 5⟩).trace :=
  ⟨(C3_establishment_failure (some 4) true (Except.ok 5) (heal.Err.downstream 2)).1,
    (C3_establishment_failure (some 4) true (Except.ok 5)
      (heal.Err.downstream 2)).2.2.1⟩

/-- C7: every Close cancels the stored monitoring task if one exists (no-op
otherwise) before forwarding Close downstream, returns the downstream result
unchanged, and a second Close for the same connection performs no further
cancellation. -/
theorem C7_close_idempotent (h : heal.CancelHandle) (conn conn2 : heal.Conn)
    (env env2 : heal.CloseEnv) :
    (heal.Close (some h) conn env).result = env.nextClose ∧
    (heal.Close none conn env).result = env.nextClose ∧
    heal.occursBefore (heal.Close (some h) conn env).trace
      (heal.Action.cancelEventLoop h) (heal.Action.forwardClose conn) ∧
    (heal.Close none conn env).trace = [heal.Action.forwardClose conn] ∧
    (heal.Close (some h) conn env).stored = none ∧
    (∀ h2, heal.Action.cancelEventLoop h2 ∉
      (heal.Close (heal.Close (some h) conn env).stored conn2 env2).trace) := by
  simp [heal.Close, heal.occursBefore, heal.firstIdx]

/-- Witness for C7 at a concrete input: a first Close with handle 1 stored
returns the downstream success, and a second Close performs no cancellation. -/
theorem C7_close_idempotent_witness :
    (heal.Close (some 1) 2 ⟨Except.ok ()⟩).result = Except.ok () ∧
    heal.Action.cancelEventLoop 1 ∉
      (heal.Close (heal.Close (some 1) 2 ⟨Except.ok ()⟩).stored 3
        ⟨Except.ok ()⟩).trace :=
  ⟨(C7_close_idempotent 1 2 3 ⟨Except.ok ()⟩ ⟨Except.ok ()⟩).1,
    (C7_close_idempotent 1 2 3 ⟨Except.ok ()⟩ ⟨Except.ok ()⟩).2.2.2.2.2 1⟩

/-- C8 counterexample: the claim says Request cancels the existing monitoring
task before capturing the resume-later snapshot, but on a state holding
handle 0 the trace captures the snapshot first (`postpone.ContextWithValues`
is the first statement of `healClient.Request`), so the cancellation does not
occur before the capture. -/
theorem C8_counterexample :
    (heal.Request (some 0) ⟨Except.ok 1, true, Except.ok 2⟩).trace =
      [heal.Action.captureCloseCtx, heal.Action.cancelEventLoop 0,
        heal.Action.forwardRequest, heal.Action.startEventLoop,
        heal.Action.storeHandle 2] ∧
    ¬ heal.occursBefore (heal.Request (some 0) ⟨Except.ok 1, true, Except.ok 2⟩).trace
        (heal.Action.cancelEventLoop 0) heal.Action.captureCloseCtx := by
  constructor
  · decide
  · decide

/-- C8 amended: Request performs its steps in source order: first capture the
resume-later snapshot of context values, then cancel any existing monitoring
task for the logical connection key, then forward the request downstream. -/
theorem C8_step_order (h : heal.CancelHandle) (st : Option heal.CancelHandle)
    (env : heal.RequestEnv) :
    heal.occursBefore (heal.Request (some h) env).trace
      heal.Action.captureCloseCtx (heal.Action.cancelEventLoop h) ∧
    heal.occursBefore (heal.Request (some h) env).trace
      (heal.Action.cancelEventLoop h) heal.Action.forwardRequest ∧
    heal.occursBefore (heal.Request st env).trace
      heal.Action.captureCloseCtx heal.Action.forwardRequest := by
  obtain ⟨nr, cc, nel⟩ := env
  cases st <;> cases nr <;> cases cc <;> cases nel <;>
    simp [heal.Request, heal.occursBefore, heal.firstIdx]

/-- C10: Request is not atomic on downstream failure: with a previously
stored handle, the handle is cancelled (and the slot emptied) strictly before
the downstream forward, and the failed Request leaves the slot empty, so the
pre-existing connection is left unmonitored after the error return. -/
theorem C10_cancel_before_failed_forward (h : heal.CancelHandle) (cc : Bool)
    (nel : Except heal.Err heal.CancelHandle) (e : heal.Err) :
    heal.occursBefore (heal.Request (some h) ⟨Except.error e, cc, nel⟩).trace
      (heal.Action.cancelEventLoop h) heal.Action.forwardRequest ∧
    (heal.Request (some h) ⟨Except.error e, cc, nel⟩).stored = none ∧
    (heal.Request (some h) ⟨Except.error e, cc, nel⟩).result = Except.error e := by
  simp [heal.Request, heal.occursBefore, heal.firstIdx]

/-! ## Claims about the fan-out broadcaster -/

open eventchannel

/-- C4: a subscription's output queue is closed exactly once, the close
happens only after the subscription has left the live list, and no event is
ever pushed to the queue after the close. Concretely: the removal task
removes the channel from the live list and closes it within the one
serialized step; a channel's closed flag is untouched by any task list
containing no removal task for it (so the close happens exactly at the
channel's unique removal task); and once closed, the channel's record —
queue included — never changes again over any protocol-compliant task list,
along which the closed-implies-not-live invariant is maintained. -/
theorem C4_close_once_after_removal (m : monitorConnectionClient)
    (tr : List Task) (sid : Nat) (sub : Sub)
    (hInv : closedNotLive m = true) (hwf : wfTrace m tr = true)
    (hget : getSub m.subs sid = some sub) :
    (occCount sid (execTask m (Task.remove sid)).fanoutEventChs = 0 ∧
      getSub (execTask m (Task.remove sid)).subs sid =
        some { sub with closed := true }) ∧
    (sub.closed = true → getSub (execTasks m tr).subs sid = some sub) ∧
    (sub.closed = false → occTask (Task.remove sid) tr = 0 →
      (getSub (execTasks m tr).subs sid).map Sub.closed = some false) ∧
    closedNotLive (execTasks m tr) = true := by
  refine ⟨⟨?_, ?_⟩, ?_, ?_, ?_⟩
  · exact occCount_filter_self sid m.fanoutEventChs
  · rw [show (execTask m (Task.remove sid)).subs =
      setSub m.subs sid (fun s => { s with closed := true }) from rfl,
      getSub_setSub, if_pos rfl, hget]
    rfl
  · intro hcl
    exact closed_frozen_trace m tr sid sub hInv hwf hget hcl
  · intro hcl h0
    rw [closed_flag_trace m tr sid h0, hget]
    simp [hcl]
  · exact closedNotLive_trace m tr hInv hwf

/-- Witness for C4 at a concrete input: from a state where channel 1 is
closed, delivering an event and removing channel 0 leaves channel 1's record
unchanged and preserves the invariant. -/
theorem C4_close_once_after_removal_witness :
    closedNotLive c4State = true ∧ wfTrace c4State c4Tasks = true ∧
    getSub c4State.subs 1 = some ⟨100, [5], true⟩ ∧
    getSub (execTasks c4State c4Tasks).subs 1 = some ⟨100, [5], true⟩ ∧
    closedNotLive (execTasks c4State c4Tasks) = true := by
  refine ⟨by decide, by decide, by decide, ?_, ?_⟩
  · exact (C4_close_once_after_removal c4State c4Tasks 1 ⟨100, [5], true⟩
      (by decide) (by decide) (by decide)).2.1 rfl
  · exact (C4_close_once_after_removal c4State c4Tasks 1 ⟨100, [5], true⟩
      (by decide) (by decide) (by decide)).2.2.2

/-- C5: a delivery task pushes the event to the output queue of every
currently-live subscription — once per occurrence in the live list, hence
exactly once for a channel occurring once, and not at all for a channel not
in the live list — and two successive deliveries append the two events in
upstream order. -/
theorem C5_fanout_delivery (m : monitorConnectionClient) (e e2 : Event)
    (sid : Nat) (sub : Sub) (hget : getSub m.subs sid = some sub) :
    getSub (execTask m (Task.deliver e)).subs sid =
      some { sub with
        queue := sub.queue ++ List.replicate (occCount sid m.fanoutEventChs) e } ∧
    (occCount sid m.fanoutEventChs = 1 →
      getSub (execTask m (Task.deliver e)).subs sid =
        some { sub with queue := sub.queue ++ [e] }) ∧
    (occCount sid m.fanoutEventChs = 0 →
      getSub (execTask m (Task.deliver e)).subs sid = some sub) ∧
    (occCount sid m.fanoutEventChs = 1 →
      getSub (execTasks m [Task.deliver e, Task.deliver e2]).subs sid =
        some { sub with queue := sub.queue ++ [e, e2] }) := by
  have hbase : ∀ ev : Event, getSub (execTask m (Task.deliver ev)).subs sid =
      (getSub m.subs sid).map (fun s =>
        { s with queue := s.queue ++ List.replicate (occCount sid m.fanoutEventChs) ev }) := by
    intro ev
    rw [show (execTask m (Task.deliver ev)).subs =
      pushAll ev m.fanoutEventChs m.subs from rfl, getSub_pushAll]
  refine ⟨?_, ?_, ?_, ?_⟩
  · rw [hbase, hget]
    rfl
  · intro h1
    rw [hbase, hget, h1]
    rfl
  · intro h0
    rw [hbase, hget, h0]
    obtain ⟨cap, q, cl⟩ := sub
    simp
  · intro h1
    have hget1 : getSub (execTask m (Task.deliver e)).subs sid =
        some { sub with queue := sub.queue ++ [e] } := by
      rw [hbase, hget, h1]
      rfl
    rw [show execTasks m [Task.deliver e, Task.deliver e2] =
      execTask (execTask m (Task.deliver e)) (Task.deliver e2) from rfl,
      show (execTask (execTask m (Task.deliver e)) (Task.deliver e2)).subs =
        pushAll e2 (execTask m (Task.deliver e)).fanoutEventChs
          (execTask m (Task.deliver e)).subs from rfl,
      getSub_pushAll, hget1,
      show (execTask m (Task.deliver e)).fanoutEventChs = m.fanoutEventChs from rfl,
      h1]
    simp

/-- Witness for C5 at a concrete input: channel 0 is live once, so two
delivered events land in its queue in upstream order. -/
theorem C5_fanout_delivery_witness :
    getSub c5State.subs 0 = some ⟨100, [], false⟩ ∧
    occCount 0 c5State.fanoutEventChs = 1 ∧
    getSub (execTasks c5State [Task.deliver 3, Task.deliver 4]).subs 0 =
      some ⟨100, [3, 4], false⟩ := by
  refine ⟨by decide, by decide, ?_⟩
  exact (C5_fanout_delivery c5State 3 4 0 ⟨100, [], false⟩ (by decide)).2.2.2 (by decide)

/-- C6: every MonitorConnections call creates a fresh output channel of
capacity exactly 100 with an empty queue, submits the registration of that
channel as a task to the serialized executor, and returns at once: the live
list is unchanged when the call returns, the registration task merely sits
in the executor's queue. -/
theorem C6_subscribe_immediate (m : monitorConnectionClient)
    (sel : Option Selector) :
    MonitorConnections m sel =
      Except.ok (m.nextId,
        { nextId := m.nextId + 1,
          subs := m.subs ++ [(m.nextId, ⟨100, [], false⟩)],
          fanoutEventChs := m.fanoutEventChs,
          pending := m.pending ++ [Task.register m.nextId] }) := rfl

/-- C9: MonitorConnections never fails — for every state and every selector
argument, nil included, it returns a channel and a nil error, and the result
does not depend on the selector in any way (the selector is never read, so
the subscription is never scoped: delivery pushes every upstream event to
every live channel, as proved for C5). -/
theorem C9_selector_ignored_never_fails (m : monitorConnectionClient)
    (s1 s2 : Option Selector) :
    MonitorConnections m s1 = MonitorConnections m s2 ∧
    ∃ sid m2, MonitorConnections m s1 = Except.ok (sid, m2) ∧
      m2.subs = m.subs ++ [(sid, ⟨100, [], false⟩)] :=
  ⟨rfl, m.nextId, _, rfl, rfl⟩

end HealSDK
